import Mathlib

/-!
# Verification of the deepshell topic router and drift-detection engine

Shallow embedding of `src/chatbot/history.py` (class `Topic` and class
`HistoryManager`).  Embedding vectors are modelled as `List ℚ` (the code only
ever feeds them to the similarity library and tests their emptiness/length).
External collaborators are modelled as oracle parameters, following the
interface the code consumes:

* `cos : List ℚ → List ℚ → ℚ` — the similarity value the external
  `sklearn.metrics.pairwise.cosine_similarity` library computes on a pair of
  non-degenerate vectors (the library call itself, with its error behaviour
  on degenerate input, is `sklearnCos` below);
* `svc : String → List ℚ` — `OllamaClient.fetch_embedding`; the empty list
  models a `None`/empty result from the service;
* `summ : List Message → ℕ → Option (String × String)` — the parsed outcome
  of each retry attempt of the external summarizer inside
  `generate_topic_info_from_history` (`none` = empty/malformed response,
  raising and caught in the loop).

A raised Python exception is modelled as `Except.error ()`.  Python object
identity on `Topic` is approximated by structural equality; every concrete
state used in a theorem keeps its topics pairwise distinct, where the two
coincide.  Fields of the source classes never touched by the verified claims
(`folder_structure`, the per-`Topic` `embedding_cache` — written nowhere in
the source —, `manager`, `projects`) are elided.
-/

/-- A chat message, `{"role": role, "content": message}` as built by
`Topic.add_message`. -/
structure Message where
  role : String
  content : String
deriving DecidableEq, Repr

/-- A file record as built by `Topic._index_file`:
`{"file_name": ..., "full_path": ..., "embedding": ...}`. -/
structure FileInfo where
  file_name : String
  full_path : String
  embedding : List ℚ
deriving DecidableEq, Repr

/-- The `Topic` class of `src/chatbot/history.py`.  `history_embeddings`
entries are `Option (List ℚ)` because `HistoryManager.add_message` can append
Python `None` as an embedding. -/
structure Topic where
  name : String
  description : String
  embedded_description : List ℚ
  history : List Message
  history_embeddings : List (Option (List ℚ))
  file_embeddings : List (String × FileInfo)
deriving DecidableEq, Repr

/-- `Topic.__init__(name, description)`: fresh topic with empty history,
embeddings and file index. -/
def Topic.init (name description : String) : Topic :=
  { name := name
    description := description
    embedded_description := []
    history := []
    history_embeddings := []
    file_embeddings := [] }

/-- `Topic.add_message`: appends the raw message and its embedding to the two
parallel lists. -/
def Topic.add_message (t : Topic) (role message : String)
    (embedding : Option (List ℚ)) : Topic :=
  { t with
    history := t.history ++ [{ role := role, content := message }]
    history_embeddings := t.history_embeddings ++ [embedding] }

/-- Python dict assignment `m[k] = v` on an insertion-ordered dict, as an
association list: replaces the first binding of `k`, else appends. -/
def dictSet {β : Type} : List (String × β) → String → β → List (String × β)
  | [], k, v => [(k, v)]
  | (k', v') :: rest, k, v =>
    if k' = k then (k, v) :: rest else (k', v') :: dictSet rest k v

/-- Python dict lookup `m[k]` / `k in m` on the same representation. -/
def dictGet {β : Type} : List (String × β) → String → Option β
  | [], _ => none
  | (k', v') :: rest, k => if k' = k then some v' else dictGet rest k

/-- `os.path.basename`, POSIX flavour: the characters after the last `/`.
Folded left over the path, resetting the accumulator at each separator. -/
def basenameList (l : List Char) : List Char :=
  l.foldl (fun acc c => if c = '/' then [] else acc ++ [c]) []

/-- `os.path.basename` on strings. -/
def basename (p : String) : String :=
  String.mk (basenameList p.data)

/-- `Topic._index_file`: upserts a `FileInfo` keyed by the full path, deriving
`file_name` from the path's final segment. -/
def Topic.index_file (t : Topic) (file_path : String) (embedding : List ℚ) :
    Topic :=
  { t with
    file_embeddings :=
      dictSet t.file_embeddings file_path
        { file_name := basename file_path
          full_path := file_path
          embedding := embedding } }

/-- The mutable state of the `HistoryManager` class. -/
structure HistoryManager where
  top_k : ℕ
  similarity_threshold : ℚ
  topics : List Topic
  current_topic : Topic
  embedding_cache : List (String × List ℚ)
deriving DecidableEq, Repr

/-- `HistoryManager.__init__` with the default arguments
(`top_k=2`, `similarity_threshold=0.5`). -/
def HistoryManager.init : HistoryManager :=
  { top_k := 2
    similarity_threshold := mkRat 1 2
    topics := []
    current_topic := Topic.init "" ""
    embedding_cache := [] }

/-- The external `cosine_similarity([a], [b])[0][0]` library call.  The
library raises `ValueError` (modelled `none`) when either operand has zero
features or the dimensions disagree; on well-formed input it yields the value
of the abstract similarity kernel `cos`. -/
def sklearnCos (cos : List ℚ → List ℚ → ℚ) (a b : List ℚ) : Option ℚ :=
  if a.isEmpty ∨ b.isEmpty ∨ a.length ≠ b.length then none else some (cos a b)

/-- `mapM` specialised to `Except Unit`, written out for easy induction:
stops at the first raised exception. -/
def exceptMapM {α β : Type} (f : α → Except Unit β) :
    List α → Except Unit (List β)
  | [] => .ok []
  | a :: rest =>
    match f a with
    | .error e => .error e
    | .ok b =>
      match exceptMapM f rest with
      | .error e => .error e
      | .ok bs => .ok (b :: bs)

/-- `HistoryManager.fetch_embedding`: cached lookup by exact text, else one
external service call; a non-empty result is cached, an empty/None result is
returned as the empty-vector sentinel without caching.  (The per-call
`async with asyncio.Lock()` of the source creates a fresh lock each call and
so has no effect in this sequential semantics; its concurrency consequences
are modelled separately by `fetchStep`.) -/
def HistoryManager.fetch_embedding (svc : String → List ℚ)
    (st : HistoryManager) (text : String) : List ℚ × HistoryManager :=
  match dictGet st.embedding_cache text with
  | some v => (v, st)
  | none =>
    let embedding := svc text
    if embedding.isEmpty then ([], st)
    else (embedding,
      { st with embedding_cache := dictSet st.embedding_cache text embedding })

/-- `HistoryManager.switch_topic`: if the target's name differs from the
current topic's, append the current topic to `topics` unless a stored topic
already bears its name, then repoint `current_topic` at the target.  The
target itself is never removed from `topics`. -/
def HistoryManager.switch_topic (st : HistoryManager) (topic : Topic) :
    HistoryManager :=
  if topic.name = st.current_topic.name then st
  else
    { st with
      topics :=
        if st.topics.any (fun t => t.name = st.current_topic.name) then
          st.topics
        else st.topics ++ [st.current_topic]
      current_topic := topic }

/-- The inner `compute_similarity` of `HistoryManager._match_topic`.  The
Python guard `len(topic.embedded_description) == 0 or len(embedding) == 0`
short-circuits: with an empty description embedding it returns `0.0` before
touching `embedding`, so a `None` embedding (`len(None)`) raises only when the
description embedding is non-empty. -/
def compute_similarity (cos : List ℚ → List ℚ → ℚ)
    (embedding : Option (List ℚ)) (t : Topic) : Except Unit ℚ :=
  if t.embedded_description.isEmpty then .ok 0
  else
    match embedding with
    | none => .error ()
    | some e =>
      if e.isEmpty then .ok 0
      else
        match sklearnCos cos e t.embedded_description with
        | none => .error ()
        | some s => .ok s

/-- The gathered `(similarity, topic)` pairs of `_match_topic`, over the
stored topics other than `exclude_topic`, in stored order. -/
def match_results (cos : List ℚ → List ℚ → ℚ) (st : HistoryManager)
    (embedding : Option (List ℚ)) (exclude_topic : Option Topic) :
    Except Unit (List (ℚ × Topic)) :=
  exceptMapM
    (fun t =>
      match compute_similarity cos embedding t with
      | .error e => .error e
      | .ok s => .ok (s, t))
    (st.topics.filter (fun t => decide (exclude_topic ≠ some t)))

/-- One iteration of the selection loop of `_match_topic`: the running
`(best_similarity, best_topic)` pair is replaced when
`similarity > best_similarity` and `similarity >= similarity_threshold`. -/
def selStep (thr : ℚ) (acc : ℚ × Option Topic) (p : ℚ × Topic) :
    ℚ × Option Topic :=
  if p.1 > acc.1 ∧ p.1 ≥ thr then (p.1, some p.2) else acc

/-- The selection loop of `_match_topic`: running best starts at
`(0.0, None)`. -/
def select_best (thr : ℚ) (results : List (ℚ × Topic)) : Option Topic :=
  (results.foldl (selStep thr) ((0 : ℚ), (none : Option Topic))).2

/-- `HistoryManager._match_topic`: early `None` when no topics are stored,
else gather similarities and select the best qualifying one. -/
def HistoryManager.match_topic (cos : List ℚ → List ℚ → ℚ)
    (st : HistoryManager) (embedding : Option (List ℚ))
    (exclude_topic : Option Topic) : Except Unit (Option Topic) :=
  if st.topics.length = 0 then .ok none
  else
    match match_results cos st embedding exclude_topic with
    | .error e => .error e
    | .ok results => .ok (select_best st.similarity_threshold results)

/-- Python truthiness of the `embedding` argument of
`HistoryManager.add_message` (`None` and the empty vector are falsy). -/
def optTruthy : Option (List ℚ) → Bool
  | none => false
  | some l => !l.isEmpty

/-- `HistoryManager.add_message` (the spec's `routeMessage`), synchronous
part.  Note the source's condition is `if embedding:` — it re-fetches an
embedding for `message` exactly when a truthy embedding was *supplied*, and
leaves `embedding = None` untouched when none was.  The trailing
`asyncio.create_task(self._analyze_history())` detaches drift analysis; it is
modelled separately by `HistoryManager.analyze_history`. -/
def HistoryManager.add_message (cos : List ℚ → List ℚ → ℚ)
    (svc : String → List ℚ) (st : HistoryManager) (role message : String)
    (embedding : Option (List ℚ)) : Except Unit HistoryManager :=
  let p :=
    if optTruthy embedding then
      let q := st.fetch_embedding svc message
      (some q.1, q.2)
    else (embedding, st)
  match p.2.match_topic cos p.1 (some p.2.current_topic) with
  | .error e => .error e
  | .ok topicOpt =>
    let st2 :=
      match topicOpt with
      | some t => p.2.switch_topic t
      | none => p.2
    .ok { st2 with
          current_topic := st2.current_topic.add_message role message p.1 }

/-- The retry loop of `HistoryManager.generate_topic_info_from_history`:
attempt `i` is the parsed outcome of the `i`-th summarizer call (`none` when
the response was empty, malformed or raised — all caught and retried).  The
loop returns the first attempt whose extracted name and description are both
truthy (non-empty), and `(None, None)` once the retry budget is exhausted. -/
def genTopicInfoAux (attempts : ℕ → Option (String × String)) :
    ℕ → ℕ → Option (String × String)
  | 0, _ => none
  | n + 1, i =>
    match attempts i with
    | some (name, desc) =>
      if name ≠ "" ∧ desc ≠ "" then some (name, desc)
      else genTopicInfoAux attempts n (i + 1)
    | none => genTopicInfoAux attempts n (i + 1)

/-- `HistoryManager.generate_topic_info_from_history` (the history argument is
already baked into `attempts`). -/
def generate_topic_info_from_history (attempts : ℕ → Option (String × String))
    (max_retries : ℕ) : Option (String × String) :=
  genTopicInfoAux attempts max_retries 0

/-- Python `not name.strip()`: the name is empty or all whitespace. -/
def isBlank (s : String) : Bool :=
  s.data.all Char.isWhitespace

/-- `sum(1 for s in similarities if s < off_topic_threshold)`. -/
def countBelow (thr : ℚ) (sims : List ℚ) : ℕ :=
  (sims.filter (fun s => s < thr)).length

/-- The drift test of `_analyze_history`: more of the slice below the
threshold than `len(similarities) / 2` (Python float division). -/
def driftDeclared (thr : ℚ) (sims : List ℚ) : Bool :=
  decide ((countBelow thr sims : ℚ) > mkRat sims.length 2)

/-- Index of the first slice entry scoring below the threshold (the `for … break`
loop of `_analyze_history`). -/
def firstBelow (thr : ℚ) : List ℚ → Option ℕ
  | [] => none
  | s :: rest =>
    if s < thr then some 0 else (firstBelow thr rest).map (· + 1)

/-- The `off_topic_start_index` computation: initialised to
`len(history) - slice_size` and moved to the first sub-threshold slice entry
(absolute index) when one exists.  `ℕ` subtraction is truncated; for the
source's default `slice_size ≤ len(history)` (guaranteed by the trigger) it
agrees with the Python index arithmetic. -/
def off_topic_start_index (histLen slice_size : ℕ) (thr : ℚ)
    (sims : List ℚ) : ℕ :=
  match firstBelow thr sims with
  | some i => histLen - slice_size + i
  | none => histLen - slice_size

/-- The per-message similarity loop of `_analyze_history`:
`cosine_similarity([msg_emb], [embedded_description])` for each candidate
embedding, raising on degenerate input (in particular when the description
embedding is empty). -/
def drift_similarities (cos : List ℚ → List ℚ → ℚ) (desc : List ℚ)
    (embs : List (List ℚ)) : Except Unit (List ℚ) :=
  exceptMapM
    (fun e =>
      match sklearnCos cos e desc with
      | none => .error ()
      | some s => .ok s)
    embs

/-- The `asyncio.gather` of `fetch_embedding` calls over the candidate slice,
linearized left to right (each call checks and updates the shared cache). -/
def fetchAll (svc : String → List ℚ) :
    HistoryManager → List String → List (List ℚ) × HistoryManager
  | st, [] => ([], st)
  | st, t :: rest =>
    let p := st.fetch_embedding svc t
    let q := fetchAll svc p.2 rest
    (p.1 :: q.1, q.2)

/-- The migration loop of `_analyze_history`: for each segment message,
fetch its embedding and append role/content/embedding to the target topic. -/
def migrate (svc : String → List ℚ) :
    HistoryManager → Topic → List Message → HistoryManager × Topic
  | st, tgt, [] => (st, tgt)
  | st, tgt, m :: rest =>
    let p := st.fetch_embedding svc m.content
    migrate svc p.2 (tgt.add_message m.role m.content (some p.1)) rest

/-- The truncation step of `_analyze_history`: locate the first stored topic
bearing the pre-drift name and truncate its `history` to `history[:start]`
— its `history_embeddings` are left untouched, exactly as in the source.
A missing name is a no-op. -/
def truncateFirstByName : List Topic → String → ℕ → List Topic
  | [], _, _ => []
  | t :: rest, nm, start =>
    if t.name = nm then { t with history := t.history.take start } :: rest
    else t :: truncateFirstByName rest nm start

/-- The drift-detection phase of `HistoryManager._analyze_history`
(lines 481–561): trigger on history length, score the last `slice_size`
messages, and on a declared drift segment, name it, migrate it into a matched
or fresh topic, switch, and (in the new-topic branch only) truncate the
original topic found by its pre-drift name. -/
def HistoryManager.analyze_drift (cos : List ℚ → List ℚ → ℚ)
    (svc : String → List ℚ) (summ : List Message → ℕ → Option (String × String))
    (st : HistoryManager) (off_topic_threshold : ℚ)
    (off_topic_frequency slice_size : ℕ) : Except Unit HistoryManager :=
  if off_topic_frequency ≤ st.current_topic.history.length ∧
      st.current_topic.history.length % off_topic_frequency = 0 then
    let current_name := st.current_topic.name
    let histLen := st.current_topic.history.length
    let candidate_slice := st.current_topic.history.drop (histLen - slice_size)
    let fetched := fetchAll svc st (candidate_slice.map (·.content))
    let st := fetched.2
    match drift_similarities cos st.current_topic.embedded_description
        fetched.1 with
    | .error e => .error e
    | .ok similarities =>
      if driftDeclared off_topic_threshold similarities then
        let start :=
          off_topic_start_index histLen slice_size off_topic_threshold
            similarities
        let off_topic_segment := st.current_topic.history.drop start
        match generate_topic_info_from_history (summ off_topic_segment) 3 with
        | none => .ok st
        | some (candidate_topic_name, candidate_topic_desc) =>
          let fe := st.fetch_embedding svc candidate_topic_desc
          let candidate_embedding := fe.1
          let st := fe.2
          match st.match_topic cos (some candidate_embedding)
              (some st.current_topic) with
          | .error e => .error e
          | .ok (some matched_topic) =>
            let mg := migrate svc st matched_topic off_topic_segment
            let st :=
              { mg.1 with
                topics := mg.1.topics.map
                  (fun t => if t = matched_topic then mg.2 else t) }
            .ok (st.switch_topic mg.2)
          | .ok none =>
            let new_topic :=
              { Topic.init candidate_topic_name candidate_topic_desc with
                embedded_description := candidate_embedding }
            let mg := migrate svc st new_topic off_topic_segment
            let st := mg.1.switch_topic mg.2
            .ok { st with
                  topics := truncateFirstByName st.topics current_name start }
      else .ok st
  else .ok st

/-- `HistoryManager._analyze_history` with its default parameters made
explicit.  Naming phase first: an unnamed topic with more than 4 messages is
named from the summarizer, and on success the method returns without entering
drift detection.  On naming *failure* control falls through to the
drift-detection phase (the source's `return` sits inside the success branch),
which is not gated on the topic being named. -/
def HistoryManager.analyze_history (cos : List ℚ → List ℚ → ℚ)
    (svc : String → List ℚ) (summ : List Message → ℕ → Option (String × String))
    (st : HistoryManager) (off_topic_threshold : ℚ)
    (off_topic_frequency slice_size : ℕ) : Except Unit HistoryManager :=
  if 4 < st.current_topic.history.length ∧ isBlank st.current_topic.name then
    match generate_topic_info_from_history (summ st.current_topic.history) 3 with
    | some (new_topic_name, new_topic_desc) =>
      let fe := st.fetch_embedding svc new_topic_desc
      .ok { fe.2 with
            current_topic :=
              { fe.2.current_topic with
                name := new_topic_name
                description := new_topic_desc
                embedded_description := fe.1 } }
    | none =>
      st.analyze_drift cos svc summ off_topic_threshold off_topic_frequency
        slice_size
  else
    st.analyze_drift cos svc summ off_topic_threshold off_topic_frequency
      slice_size

/-- `np.argmax` over a similarity row: index of the first occurrence of the
maximum.  Auxiliary scan carrying the best value, the next index and the best
index. -/
def argmaxAux : List ℚ → ℚ → ℕ → ℕ → ℕ
  | [], _, _, bi => bi
  | x :: rest, bv, i, bi =>
    if x > bv then argmaxAux rest x (i + 1) i else argmaxAux rest bv (i + 1) bi

/-- `np.argmax` (first maximal index; `0` on an empty row, unreachable in the
guarded call site). -/
def argmaxIdx : List ℚ → ℕ
  | [] => 0
  | x :: rest => argmaxAux rest x 1 0

/-- The row `cosine_similarity([embedding], self.history_embeddings)[0]` of
`Topic.get_relevant_context`: one library call over the whole history; a
`None` entry (appended by the `add_message` embedding bug) or a degenerate
vector anywhere makes the call raise. -/
def historyRow (cos : List ℚ → List ℚ → ℚ) (embedding : List ℚ)
    (entries : List (Option (List ℚ))) : Except Unit (List ℚ) :=
  exceptMapM
    (fun eo =>
      match eo with
      | none => .error ()
      | some v =>
        match sklearnCos cos embedding v with
        | none => .error ()
        | some s => .ok s)
    entries

/-- `Topic.get_relevant_context` (the spec's `bestContext`): `(0.0, -1)` on an
empty history, else the best similarity and its first index.  Only the
emptiness of `history_embeddings` is guarded; the query embedding goes to the
library unchecked. -/
def Topic.get_relevant_context (cos : List ℚ → List ℚ → ℚ) (t : Topic)
    (embedding : List ℚ) : Except Unit (ℚ × Int) :=
  if t.history_embeddings.isEmpty then .ok (0, -1)
  else
    match historyRow cos embedding t.history_embeddings with
    | .error e => .error e
    | .ok similarities =>
      let best_index := argmaxIdx similarities
      .ok (similarities.getD best_index 0, (best_index : Int))

/-- Python `str.lower` on the ASCII letters (the only characters the verified
claims touch; all other characters are returned unchanged). -/
def lowerChar (c : Char) : Char :=
  if c = 'A' then 'a' else if c = 'B' then 'b' else if c = 'C' then 'c'
  else if c = 'D' then 'd' else if c = 'E' then 'e' else if c = 'F' then 'f'
  else if c = 'G' then 'g' else if c = 'H' then 'h' else if c = 'I' then 'i'
  else if c = 'J' then 'j' else if c = 'K' then 'k' else if c = 'L' then 'l'
  else if c = 'M' then 'm' else if c = 'N' then 'n' else if c = 'O' then 'o'
  else if c = 'P' then 'p' else if c = 'Q' then 'q' else if c = 'R' then 'r'
  else if c = 'S' then 's' else if c = 'T' then 't' else if c = 'U' then 'u'
  else if c = 'V' then 'v' else if c = 'W' then 'w' else if c = 'X' then 'x'
  else if c = 'Y' then 'y' else if c = 'Z' then 'z'
  else c

/-- `str.lower` over a whole string. -/
def lowerStr (s : String) : String :=
  String.mk (s.data.map lowerChar)

/-- Python substring test `needle in hay`. -/
def hasSubstr (needle : List Char) : List Char → Bool
  | [] => needle.isEmpty
  | c :: rest => needle.isPrefixOf (c :: rest) || hasSubstr needle rest

/-- The score-1.0 name-match pass of `HistoryManager.get_relevant_files`
(step 1): every current-topic file whose stored (basename) `file_name`
contains the extracted query file name case-insensitively scores `1.0`. -/
def name_match_scores (t : Topic) (file_name : String) : List (String × ℚ) :=
  (t.file_embeddings.filter
    (fun pr =>
      hasSubstr (lowerStr file_name).data (lowerStr pr.2.file_name).data)).map
    (fun pr => (pr.1, (1 : ℚ)))

/-- The embedding-similarity pass of `get_relevant_files` over the current
topic's files: similarity of the query embedding against each stored file
embedding, kept when at least `similarity_threshold`. -/
def embedding_scores (cos : List ℚ → List ℚ → ℚ) (t : Topic)
    (query_embedding : List ℚ) (similarity_threshold : ℚ) :
    Except Unit (List (String × ℚ)) :=
  match
    exceptMapM
      (fun pr =>
        match sklearnCos cos query_embedding pr.2.embedding with
        | none => .error ()
        | some s => .ok (pr.1, s))
      t.file_embeddings
  with
  | .error e => .error e
  | .ok scored => .ok (scored.filter (fun p => similarity_threshold ≤ p.2))

/-- Step 1 of `HistoryManager.get_relevant_files` (lines 279–293): with an
extracted file name, try the score-1.0 name-match pass over the current
topic first, and only if it produced nothing fall back to embedding
similarity within the current topic.  (The cross-topic expansion, sorting and
file reading of steps 2–4 are not needed by the verified claims.) -/
def step1_scores (cos : List ℚ → List ℚ → ℚ) (t : Topic)
    (file_name : Option String) (query_embedding : List ℚ)
    (similarity_threshold : ℚ) : Except Unit (List (String × ℚ)) :=
  match file_name with
  | some fn =>
    let file_scores := name_match_scores t fn
    if file_scores.isEmpty then
      embedding_scores cos t query_embedding similarity_threshold
    else .ok file_scores
  | none => .ok []

/-- Progress of one `fetch_embedding` task through its suspension points:
created, past the cache check (a miss), or finished with a value. -/
inductive FetchPhase where
  | start : FetchPhase
  | missed : FetchPhase
  | done : List ℚ → FetchPhase
deriving DecidableEq, Repr

/-- One in-flight `fetch_embedding(text)` call. -/
structure FetchTask where
  text : String
  phase : FetchPhase
deriving DecidableEq, Repr

/-- Shared state of the interleaving semantics for concurrent
`fetch_embedding` calls: the manager's cache, the in-flight tasks, and a
count of external embedding-service invocations. -/
structure CacheSys where
  cache : List (String × List ℚ)
  tasks : List FetchTask
  svcCalls : ℕ
deriving DecidableEq, Repr

/-- Interleaving semantics of `HistoryManager.fetch_embedding`.  The body has
two atomic sections: (1) the cache check — the `async with asyncio.Lock():`
around it constructs a *fresh, unshared* lock, so acquisition never blocks
any other task and the check is merely one isolated step; (2) the external
service call plus cache population, which sit entirely outside any critical
section and form the second step, at which the service-invocation counter
advances.  Any task may step at any time. -/
inductive fetchStep (svc : String → List ℚ) : CacheSys → CacheSys → Prop where
  | checkHit (s s' : CacheSys) (i : ℕ) (task : FetchTask) (v : List ℚ) :
      s.tasks.get? i = some task → task.phase = .start →
      dictGet s.cache task.text = some v →
      s' = { s with tasks := s.tasks.set i { task with phase := .done v } } →
      fetchStep svc s s'
  | checkMiss (s s' : CacheSys) (i : ℕ) (task : FetchTask) :
      s.tasks.get? i = some task → task.phase = .start →
      dictGet s.cache task.text = none →
      s' = { s with tasks := s.tasks.set i { task with phase := .missed } } →
      fetchStep svc s s'
  | fetchPopulate (s s' : CacheSys) (i : ℕ) (task : FetchTask) :
      s.tasks.get? i = some task → task.phase = .missed →
      s' = { s with
             cache :=
               if (svc task.text).isEmpty then s.cache
               else dictSet s.cache task.text (svc task.text),
             tasks :=
               s.tasks.set i
                 { task with
                   phase :=
                     .done (if (svc task.text).isEmpty then []
                            else svc task.text) },
             svcCalls := s.svcCalls + 1 } →
      fetchStep svc s s'

deriving instance DecidableEq for Except

/-! ## Concrete fixtures

Small closed states used by the counterexample and witness theorems below.
The abstract similarity kernels are finite tables; `cosEq` scores `1` for
identical vectors and `0` otherwise, and `cosHalf` realises the attainable
cosine value `1/2` (e.g. the real vectors `(1,0,0,0)` and `(1,1,1,1)` have
cosine exactly `1/2`, and `0.5` is exactly representable in floating point).
-/

/-- Similarity kernel: `1` on equal vectors, `0` otherwise. -/
def cosEq : List ℚ → List ℚ → ℚ := fun a b => if a = b then 1 else 0

/-- Similarity kernel realising the exact threshold value `1/2` on one pair. -/
def cosHalf : List ℚ → List ℚ → ℚ := fun a b =>
  if a = [1, 0, 0, 0] ∧ b = [1, 1, 1, 1] then mkRat 1 2 else 0

/-- Embedding service knowing only the text `"hi"`. -/
def svcC1 : String → List ℚ := fun t => if t = "hi" then [1] else []

/-- A stored topic with a non-empty description embedding. -/
def topicD : Topic := { Topic.init "d" "dd" with embedded_description := [1] }

/-- Router state holding `topicD`. -/
def stC1b : HistoryManager := { HistoryManager.init with topics := [topicD] }

/-- Embedding service for the drift scenarios: message `"c1"` embeds onto the
topic description axis, `"c2"`–`"c4"` and the candidate description `"bd"`
onto the orthogonal axis. -/
def svcD : String → List ℚ := fun t =>
  if t = "c1" then [1, 0]
  else if t = "bd" then [0, 1]
  else if t = "c2" ∨ t = "c3" ∨ t = "c4" then [0, 1]
  else []

/-- Summarizer oracle succeeding at the first attempt with
`("beta", "bd")`. -/
def summD : List Message → ℕ → Option (String × String) := fun _ i =>
  if i = 0 then some ("beta", "bd") else none

/-- A named 4-message topic whose last three messages drift off-topic. -/
def alphaT : Topic :=
  { name := "alpha"
    description := "ad"
    embedded_description := [1, 0]
    history :=
      [{ role := "user", content := "c1" }, { role := "user", content := "c2" },
       { role := "user", content := "c3" }, { role := "user", content := "c4" }]
    history_embeddings := [some [1, 0], some [0, 1], some [0, 1], some [0, 1]]
    file_embeddings := [] }

/-- Drift scenario with no stored topics: the new-topic branch runs. -/
def stC2 : HistoryManager := { HistoryManager.init with current_topic := alphaT }

/-- A stored topic whose description embedding matches the drift segment's
candidate description. -/
def gammaT : Topic := { Topic.init "gamma" "gd" with embedded_description := [0, 1] }

/-- Drift scenario with `gammaT` stored: the matched-topic branch runs. -/
def stC3 : HistoryManager :=
  { HistoryManager.init with current_topic := alphaT, topics := [gammaT] }

/-- Embedding service returning the same 1-dimensional vector for any text. -/
def svcG : String → List ℚ := fun _ => [1]

/-- Summarizer oracle whose every attempt fails. -/
def summNone : List Message → ℕ → Option (String × String) := fun _ _ => none

/-- Eight generic user messages. -/
def msgs8 : List Message :=
  [{ role := "user", content := "g1" }, { role := "user", content := "g2" },
   { role := "user", content := "g3" }, { role := "user", content := "g4" },
   { role := "user", content := "g5" }, { role := "user", content := "g6" },
   { role := "user", content := "g7" }, { role := "user", content := "g8" }]

/-- An unnamed topic with 8 messages — naming is due and the drift trigger
(8 mod 4 = 0) holds. -/
def unnamedT : Topic :=
  { Topic.init "" "" with
    history := msgs8
    history_embeddings := msgs8.map (fun _ => some [1]) }

/-- Router state for the unnamed-topic drift counterexample. -/
def stC5 : HistoryManager := { HistoryManager.init with current_topic := unnamedT }

/-- An unnamed topic with 5 messages — naming is due but the drift trigger
(5 mod 4 ≠ 0) fails. -/
def unnamed5T : Topic :=
  { Topic.init "" "" with
    history := msgs8.take 5
    history_embeddings := (msgs8.take 5).map (fun _ => some [1]) }

/-- Router state for the naming-failure witness. -/
def stC5b : HistoryManager :=
  { HistoryManager.init with current_topic := unnamed5T }

/-- A stored topic scoring exactly the similarity threshold against the query
`[1, 0, 0, 0]` under `cosHalf`. -/
def boundaryT : Topic :=
  { Topic.init "bt" "btd" with embedded_description := [1, 1, 1, 1] }

/-- Router state for the exact-threshold matching counterexample. -/
def stC6 : HistoryManager := { HistoryManager.init with topics := [boundaryT] }

/-- A stored topic scoring `0` against the witness query under `cosEq`. -/
def lowT : Topic := { Topic.init "low" "ld" with embedded_description := [7] }

/-- Router state for the all-below-threshold witness. -/
def stLow : HistoryManager := { HistoryManager.init with topics := [lowT] }

/-- Current topic of the switching counterexample. -/
def aT : Topic := Topic.init "a" "adesc"

/-- Stored switching target. -/
def bT : Topic := { Topic.init "b" "bdesc" with embedded_description := [2] }

/-- Router state with `bT` stored and `aT` current. -/
def stC4 : HistoryManager :=
  { HistoryManager.init with current_topic := aT, topics := [bT] }

/-- A topic that indexed one path-qualified file. -/
def tC10 : Topic := (Topic.init "files" "fd").index_file "src/app/main.py" [1]

/-- A topic with one stored history embedding (non-empty history row). -/
def histT : Topic :=
  { Topic.init "h" "hd" with history_embeddings := [some [1, 0]] }

/-- Embedding service for the concurrency scenario. -/
def svcT : String → List ℚ := fun t => if t = "t" then [1] else []

/-- Two concurrent `fetch_embedding("t")` tasks, empty cache. -/
def c9init : CacheSys :=
  { cache := []
    tasks := [{ text := "t", phase := .start }, { text := "t", phase := .start }]
    svcCalls := 0 }

/-- After task 0's cache check missed. -/
def c9mid1 : CacheSys :=
  { cache := []
    tasks := [{ text := "t", phase := .missed }, { text := "t", phase := .start }]
    svcCalls := 0 }

/-- After task 1's cache check also missed. -/
def c9mid2 : CacheSys :=
  { cache := []
    tasks := [{ text := "t", phase := .missed }, { text := "t", phase := .missed }]
    svcCalls := 0 }

/-- After task 0 called the service and populated the cache. -/
def c9mid3 : CacheSys :=
  { cache := [("t", [1])]
    tasks := [{ text := "t", phase := .done [1] }, { text := "t", phase := .missed }]
    svcCalls := 1 }

/-- After task 1 called the service a second time for the same text. -/
def c9final : CacheSys :=
  { cache := [("t", [1])]
    tasks := [{ text := "t", phase := .done [1] }, { text := "t", phase := .done [1] }]
    svcCalls := 2 }

/-! ## Claim theorems -/

/-- C1: the claim says `add_message(role, message, embedding=None)` fetches an
embedding via the cache before matching and appends the message paired with
that fetched embedding.  The source tests `if embedding:` — the exact
opposite — so with `embedding = None` nothing is fetched even though the
service has a vector for the text: the cache stays empty, `None` is appended
as the embedding, and in a state with a stored described topic the match step
raises `TypeError` on `len(None)`. -/
theorem add_message_skips_fetch_when_embedding_missing :
    (HistoryManager.add_message cosEq svcC1 HistoryManager.init "user" "hi"
          none).map
        (fun s => s.current_topic.history) =
      .ok [{ role := "user", content := "hi" }] ∧
    (HistoryManager.add_message cosEq svcC1 HistoryManager.init "user" "hi"
          none).map
        (fun s => s.current_topic.history_embeddings) =
      .ok [none] ∧
    (HistoryManager.add_message cosEq svcC1 HistoryManager.init "user" "hi"
          none).map
        (fun s => s.embedding_cache) =
      .ok [] ∧
    svcC1 "hi" = [1] ∧
    HistoryManager.add_message cosEq svcC1 stC1b "user" "hi" none =
      .error () := by
  refine ⟨?_, ?_, ?_, ?_, ?_⟩ <;> decide

/-- C2: the claim says `len(history) == len(historyEmbeddings)` after every
mutating operation including drift truncation.  Running `_analyze_history` on
an aligned 4-message topic `"alpha"` (similarities `[1,0,0,0]`, no stored
topics, candidate info `("beta","bd")`) truncates `alpha.history` to length 1
but leaves `alpha.history_embeddings` at length 4: the invariant is broken by
the truncation step. -/
theorem drift_truncation_breaks_alignment :
    stC2.current_topic.history.length = 4 ∧
    stC2.current_topic.history_embeddings.length = 4 ∧
    (HistoryManager.analyze_history cosEq svcD summD stC2 (mkRat 7 10) 4 4).map
      (fun s =>
        s.topics.map
          (fun t => (t.name, t.history.length, t.history_embeddings.length))) =
      .ok [("alpha", 1, 4)] := by
  decide

/-- C3: the claim (and the source's own docstring, step 4) says the original
topic's history is truncated to `history[:start]` in the matched-topic branch
as well.  With stored topic `"gamma"` matching the drift segment's candidate
description, the segment's 3 messages are appended to `"gamma"` and the
switch happens, but `"alpha"` still holds all 4 messages afterwards — the
truncation block only exists in the new-topic branch. -/
theorem matched_branch_skips_truncation :
    off_topic_start_index 4 4 (mkRat 7 10) [1, 0, 0, 0] = 1 ∧
    (HistoryManager.analyze_history cosEq svcD summD stC3 (mkRat 7 10) 4 4).map
      (fun s =>
        (s.current_topic.name,
          s.topics.map (fun t => (t.name, t.history.length)))) =
      .ok ("gamma", [("gamma", 3), ("alpha", 4)]) := by
  decide

/-- C4 (counterexample): the claim says that after `switch_topic(target)`
with a stored `target`, the target no longer appears in `topics`.  Switching
`stC4` (current `"a"`, stored `[bT]`) to the stored topic `bT` makes `bT`
current while `bT` remains a member of `topics` — the switch never removes
its target. -/
theorem switch_topic_keeps_target_in_topics :
    (stC4.switch_topic bT).current_topic = bT ∧
    bT ∈ (stC4.switch_topic bT).topics := by
  decide

/-- C4 (amended): after `switch_topic(target)` where `target` is stored under
a name different from the current topic's, `target` becomes the current topic
and *still* appears in `topics`, and the previous current topic is
represented in `topics` by name.  There is exactly one `current_topic` field,
but it is not disjoint from the stored collection. -/
theorem switch_topic_amended (st : HistoryManager) (t : Topic)
    (hmem : t ∈ st.topics) (hname : t.name ≠ st.current_topic.name) :
    (st.switch_topic t).current_topic = t ∧
    t ∈ (st.switch_topic t).topics ∧
    (st.switch_topic t).topics.any
      (fun u => u.name = st.current_topic.name) = true := by
  unfold HistoryManager.switch_topic
  rw [if_neg hname]
  by_cases h : st.topics.any (fun u => u.name = st.current_topic.name)
  · rw [if_pos h]
    exact ⟨rfl, hmem, h⟩
  · rw [if_neg h]
    refine ⟨rfl, List.mem_append_left _ hmem, ?_⟩
    rw [List.any_append]
    simp

/-- C4 (witness): the amended statement at the concrete switching state. -/
theorem switch_topic_amended_witness :
    (stC4.switch_topic bT).current_topic = bT ∧
    bT ∈ (stC4.switch_topic bT).topics ∧
    (stC4.switch_topic bT).topics.any
      (fun u => u.name = stC4.current_topic.name) = true :=
  switch_topic_amended stC4 bT (by decide) (by decide)

/-- C9: the claim says at most one external embedding computation happens per
distinct text even under concurrent fetches, the check-and-populate being one
atomic step under a persistent lock.  In the interleaving semantics of the
source's `fetch_embedding` — whose per-call `asyncio.Lock()` is fresh and so
never excludes anyone, and whose service call and cache write sit outside the
locked region — two tasks fetching the same text `"t"` can both miss the
cache and both invoke the service: a state with 2 service calls for one
distinct text is reachable. -/
theorem fetch_embedding_double_fetch :
    Relation.ReflTransGen (fetchStep svcT) c9init c9final ∧
    c9final.svcCalls = 2 ∧
    c9init.tasks.map (fun tk => tk.text) = ["t", "t"] ∧
    c9init.svcCalls = 0 := by
  refine ⟨?_, rfl, rfl, rfl⟩
  have s1 : fetchStep svcT c9init c9mid1 :=
    .checkMiss c9init c9mid1 0 { text := "t", phase := .start } rfl rfl rfl
      (by decide)
  have s2 : fetchStep svcT c9mid1 c9mid2 :=
    .checkMiss c9mid1 c9mid2 1 { text := "t", phase := .start } rfl rfl rfl
      (by decide)
  have s3 : fetchStep svcT c9mid2 c9mid3 :=
    .fetchPopulate c9mid2 c9mid3 0 { text := "t", phase := .missed } rfl rfl
      (by decide)
  have s4 : fetchStep svcT c9mid3 c9final :=
    .fetchPopulate c9mid3 c9final 1 { text := "t", phase := .missed } rfl rfl
      (by decide)
  exact ((((Relation.ReflTransGen.refl).tail s1).tail s2).tail s3).tail s4

/-- C5 (counterexample): the claim says that when naming exhausts its retries
the analysis stops and the drift-detection phase is not entered.  On an
unnamed 8-message topic whose summarizer attempts all fail, the invocation
does not stop cleanly (it would then return the state unchanged): control
falls through into the drift phase — whose trigger `8 % 4 == 0` holds and
which is not gated on the topic being named — and the phase raises, because
the unnamed topic's empty description embedding reaches the similarity
library.  The whole analysis call equals the drift phase's own result. -/
theorem unnamed_topic_drift_phase_raises :
    isBlank stC5.current_topic.name = true ∧
    stC5.current_topic.history.length = 8 ∧
    generate_topic_info_from_history (summNone stC5.current_topic.history) 3 =
      none ∧
    HistoryManager.analyze_history cosEq svcG summNone stC5 (mkRat 7 10) 4 4 =
      .error () ∧
    HistoryManager.analyze_drift cosEq svcG summNone stC5 (mkRat 7 10) 4 4 =
      .error () := by
  refine ⟨?_, ?_, ?_, ?_, ?_⟩ <;> decide

/-- C5 (amended): after a naming attempt exhausts its retries the topic does
remain unnamed, and the invocation leaves the state untouched *only when* the
history length is not a multiple of `off_topic_frequency`; the drift phase is
not gated on the topic being named, so when the length trigger holds it runs
on the unnamed topic (see the counterexample, where it raises). -/
theorem naming_failure_falls_through (cos : List ℚ → List ℚ → ℚ)
    (svc : String → List ℚ)
    (summ : List Message → ℕ → Option (String × String))
    (st : HistoryManager) (thr : ℚ) (freq slice : ℕ)
    (hblank : isBlank st.current_topic.name = true)
    (hlen : 4 < st.current_topic.history.length)
    (hgen : generate_topic_info_from_history
      (summ st.current_topic.history) 3 = none)
    (hmod : st.current_topic.history.length % freq ≠ 0) :
    st.analyze_history cos svc summ thr freq slice = .ok st := by
  have h2 : st.analyze_drift cos svc summ thr freq slice = .ok st := by
    unfold HistoryManager.analyze_drift
    rw [if_neg (fun hc => hmod hc.2)]
  unfold HistoryManager.analyze_history
  rw [if_pos ⟨hlen, hblank⟩, hgen]
  exact h2

/-- C5 (witness): the amended statement at an unnamed 5-message topic with a
failing summarizer — `5 mod 4 ≠ 0`, so the invocation is a no-op. -/
theorem naming_failure_falls_through_witness :
    HistoryManager.analyze_history cosEq svcG summNone stC5b (mkRat 7 10) 4 4 =
      .ok stC5b :=
  naming_failure_falls_through cosEq svcG summNone stC5b (mkRat 7 10) 4 4
    (by decide) (by decide) (by decide) (by decide)

/-- Invariant of `_match_topic`'s selection loop: folding `selStep` never
decreases the running best score, bounds every qualifying score by the final
best, and either leaves the accumulator untouched or returns a gathered pair
whose score is the final best and at least the threshold. -/
lemma selStep_fold_spec (thr : ℚ) (l : List (ℚ × Topic)) :
    ∀ (b : ℚ) (o : Option Topic),
      b ≤ (l.foldl (selStep thr) (b, o)).1 ∧
      (∀ p ∈ l, thr ≤ p.1 → p.1 ≤ (l.foldl (selStep thr) (b, o)).1) ∧
      (((l.foldl (selStep thr) (b, o)).2 = o ∧
          (l.foldl (selStep thr) (b, o)).1 = b) ∨
        ∃ p ∈ l, (l.foldl (selStep thr) (b, o)).2 = some p.2 ∧
          (l.foldl (selStep thr) (b, o)).1 = p.1 ∧ thr ≤ p.1) := by
  induction l with
  | nil =>
    intro b o
    exact ⟨le_refl b, by simp, Or.inl ⟨rfl, rfl⟩⟩
  | cons p rest ih =>
    intro b o
    rw [List.foldl_cons]
    by_cases h : p.1 > b ∧ p.1 ≥ thr
    · have hstep : selStep thr (b, o) p = (p.1, some p.2) := by
        unfold selStep; rw [if_pos h]
      rw [hstep]
      obtain ⟨h1, h2, h3⟩ := ih p.1 (some p.2)
      refine ⟨le_trans (le_of_lt h.1) h1, ?_, ?_⟩
      · intro q hq hthr
        rcases List.mem_cons.mp hq with heq | hq'
        · rw [heq]; exact h1
        · exact h2 q hq' hthr
      · rcases h3 with ⟨he, hb⟩ | ⟨q, hq, hsome, hval, hth⟩
        · exact Or.inr ⟨p, List.mem_cons_self p rest, he, hb, h.2⟩
        · exact Or.inr ⟨q, List.mem_cons_of_mem p hq, hsome, hval, hth⟩
    · have hstep : selStep thr (b, o) p = (b, o) := by
        unfold selStep; rw [if_neg h]
      rw [hstep]
      obtain ⟨h1, h2, h3⟩ := ih b o
      refine ⟨h1, ?_, ?_⟩
      · intro q hq hthr
        rcases List.mem_cons.mp hq with heq | hq'
        · rw [heq]
          rw [heq] at hthr
          have hngt : ¬ p.1 > b := fun hgt => h ⟨hgt, hthr⟩
          exact le_trans (not_lt.mp hngt) h1
        · exact h2 q hq' hthr
      · rcases h3 with hcase | ⟨q, hq, hrest⟩
        · exact Or.inl hcase
        · exact Or.inr ⟨q, List.mem_cons_of_mem p hq, hrest⟩

/-- When every gathered score is strictly below the threshold, the selection
loop never updates its accumulator. -/
lemma selStep_fold_none (thr : ℚ) (l : List (ℚ × Topic))
    (hall : ∀ p ∈ l, p.1 < thr) :
    ∀ (b : ℚ) (o : Option Topic), l.foldl (selStep thr) (b, o) = (b, o) := by
  induction l with
  | nil => intro b o; rfl
  | cons p rest ih =>
    intro b o
    rw [List.foldl_cons]
    have hstep : selStep thr (b, o) p = (b, o) := by
      unfold selStep
      rw [if_neg]
      intro hc
      exact absurd (hall p (List.mem_cons_self p rest)) (not_lt.mpr hc.2)
    rw [hstep]
    exact ih (fun q hq => hall q (List.mem_cons_of_mem p hq)) b o

/-- C6 (amended): `_match_topic` returns a topic only if that topic's
gathered score is at least (`>=`, not strictly above) `similarity_threshold`
and no gathered candidate scores higher; when every candidate scores strictly
below the threshold it returns none.  A score exactly equal to the threshold
qualifies — see the boundary counterexample. -/
theorem match_topic_threshold_inclusive :
    (∀ (cos : List ℚ → List ℚ → ℚ) (st : HistoryManager)
        (emb : Option (List ℚ)) (ex : Option Topic) (t : Topic),
        st.match_topic cos emb ex = .ok (some t) →
        ∀ rs, match_results cos st emb ex = .ok rs →
          ∃ p ∈ rs, p.2 = t ∧ st.similarity_threshold ≤ p.1 ∧
            ∀ q ∈ rs, q.1 ≤ p.1) ∧
    (∀ (cos : List ℚ → List ℚ → ℚ) (st : HistoryManager)
        (emb : Option (List ℚ)) (ex : Option Topic)
        (rs : List (ℚ × Topic)),
        match_results cos st emb ex = .ok rs →
        (∀ q ∈ rs, q.1 < st.similarity_threshold) →
        st.match_topic cos emb ex = .ok none) := by
  constructor
  · intro cos st emb ex t hmatch rs hrs
    unfold HistoryManager.match_topic at hmatch
    by_cases htop : st.topics.length = 0
    · rw [if_pos htop] at hmatch
      exact absurd (Except.ok.inj hmatch) (by simp)
    · rw [if_neg htop, hrs] at hmatch
      have hsel : select_best st.similarity_threshold rs = some t :=
        Except.ok.inj hmatch
      unfold select_best at hsel
      obtain ⟨h1, h2, h3⟩ := selStep_fold_spec st.similarity_threshold rs 0 none
      rcases h3 with ⟨he, _⟩ | ⟨p, hp, hsome, hval, hth⟩
      · rw [he] at hsel; cases hsel
      · rw [hsome] at hsel
        have hpt : p.2 = t := Option.some.inj hsel
        refine ⟨p, hp, hpt, hth, ?_⟩
        intro q hq
        by_cases hq2 : st.similarity_threshold ≤ q.1
        · have hle := h2 q hq hq2
          rw [hval] at hle
          exact hle
        · exact le_of_lt (lt_of_lt_of_le (not_le.mp hq2) hth)
  · intro cos st emb ex rs hrs hall
    unfold HistoryManager.match_topic
    by_cases htop : st.topics.length = 0
    · rw [if_pos htop]
    · rw [if_neg htop, hrs]
      have hsel : select_best st.similarity_threshold rs = none := by
        unfold select_best
        rw [selStep_fold_none st.similarity_threshold rs hall 0 none]
      show Except.ok (select_best st.similarity_threshold rs) =
        Except.ok none
      rw [hsel]

/-- C6 (counterexample): the claim says a topic is returned only when its
score is *strictly above* the threshold and that none is returned in the
exact-threshold boundary case.  Under the kernel `cosHalf` — realising the
attainable cosine value `1/2` — the stored topic `boundaryT` scores exactly
`similarity_threshold = 1/2` and `_match_topic` *does* return it: the
source's test is `similarity >= self.similarity_threshold`. -/
theorem match_topic_boundary_accepts :
    HistoryManager.match_topic cosHalf stC6 (some [1, 0, 0, 0]) none =
      .ok (some boundaryT) ∧
    compute_similarity cosHalf (some [1, 0, 0, 0]) boundaryT =
      .ok stC6.similarity_threshold := by
  refine ⟨?_, ?_⟩ <;> decide

/-- C6 (witness): the amended none-direction at a concrete state whose single
stored topic scores `0 < 1/2`. -/
theorem match_topic_threshold_inclusive_witness :
    HistoryManager.match_topic cosEq stLow (some [5]) none = .ok none :=
  match_topic_threshold_inclusive.2 cosEq stLow (some [5]) none [(0, lowT)]
    (by decide) (by decide)

/-- A successful `firstBelow` search returns an in-range index whose entry is
below the threshold while every earlier entry is not. -/
lemma firstBelow_some_spec (thr : ℚ) :
    ∀ (l : List ℚ) (i : ℕ), firstBelow thr l = some i →
      ∃ h : i < l.length, l.get ⟨i, h⟩ < thr ∧
        ∀ j (hj : j < l.length), j < i → thr ≤ l.get ⟨j, hj⟩ := by
  intro l
  induction l with
  | nil => intro i h; cases h
  | cons s rest ih =>
    intro i h
    unfold firstBelow at h
    by_cases hs : s < thr
    · rw [if_pos hs] at h
      have hi : i = 0 := (Option.some.inj h).symm
      subst hi
      refine ⟨Nat.succ_pos _, hs, ?_⟩
      intro j hj hji
      exact absurd hji (Nat.not_lt_zero j)
    · rw [if_neg hs] at h
      obtain ⟨i', hi', hii⟩ := Option.map_eq_some'.mp h
      subst hii
      obtain ⟨hlt, hget, hearlier⟩ := ih i' hi'
      refine ⟨by simpa using Nat.succ_lt_succ hlt, by simpa using hget, ?_⟩
      intro j hj hji
      cases j with
      | zero => simpa using not_lt.mp hs
      | succ j' =>
        have hj2 : j' < rest.length := by simpa using hj
        have hji2 : j' < i' := by omega
        simpa using hearlier j' hj2 hji2

/-- A failed `firstBelow` search means no entry is below the threshold. -/
lemma firstBelow_none_spec (thr : ℚ) :
    ∀ l : List ℚ, firstBelow thr l = none → ∀ s ∈ l, thr ≤ s := by
  intro l
  induction l with
  | nil => intro _ s hs; cases hs
  | cons a rest ih =>
    intro h s hs
    unfold firstBelow at h
    by_cases ha : a < thr
    · rw [if_pos ha] at h; cases h
    · rw [if_neg ha] at h
      rcases List.mem_cons.mp hs with heq | hrest
      · rw [heq]; exact not_lt.mp ha
      · exact ih (by simpa using h) s hrest

/-- If some entry is below the threshold, `firstBelow` finds one. -/
lemma exists_below_firstBelow (thr : ℚ) :
    ∀ l : List ℚ, (∃ s ∈ l, s < thr) → ∃ i, firstBelow thr l = some i := by
  intro l
  induction l with
  | nil => rintro ⟨s, hs, _⟩; cases hs
  | cons a rest ih =>
    rintro ⟨s, hs, hlt⟩
    unfold firstBelow
    by_cases ha : a < thr
    · exact ⟨0, by rw [if_pos ha]⟩
    · rw [if_neg ha]
      rcases List.mem_cons.mp hs with heq | hrest
      · rw [heq] at hlt; exact absurd hlt ha
      · obtain ⟨i, hi⟩ := ih ⟨s, hrest, hlt⟩
        exact ⟨i + 1, by rw [hi]; rfl⟩

/-- The source's drift test `count > len(similarities) / 2`, with Python's
float division modelled exactly over ℚ, is the strict more-than-half test. -/
lemma driftDeclared_iff (thr : ℚ) (sims : List ℚ) :
    driftDeclared thr sims = true ↔
      sims.length < 2 * countBelow thr sims := by
  unfold driftDeclared
  rw [decide_eq_true_eq, Rat.mkRat_eq_div, gt_iff_lt]
  push_cast
  rw [div_lt_iff₀ (by norm_num : (0 : ℚ) < 2), mul_comm]
  constructor <;> intro h <;> exact_mod_cast h

/-- A declared drift has at least one slice entry below the threshold. -/
lemma countBelow_exists (thr : ℚ) (sims : List ℚ)
    (h : sims.length < 2 * countBelow thr sims) : ∃ s ∈ sims, s < thr := by
  by_contra hno
  push_neg at hno
  have hzero : countBelow thr sims = 0 := by
    unfold countBelow
    rw [List.length_eq_zero, List.filter_eq_nil_iff]
    intro a ha
    simpa using hno a ha
  rw [hzero] at h
  omega

/-- C7: drift is declared iff strictly more than half of the candidate-slice
similarities are below the threshold (exactly half does not trigger), and
when declared the start index is the absolute history index of the first
slice entry scoring below the threshold; if no entry is individually below,
the index defaults to the start of the slice. -/
theorem drift_declaration_and_start_index (thr : ℚ) (sims : List ℚ)
    (histLen slice_size : ℕ) :
    (driftDeclared thr sims = true ↔
      sims.length < 2 * countBelow thr sims) ∧
    (2 * countBelow thr sims = sims.length →
      driftDeclared thr sims = false) ∧
    (driftDeclared thr sims = true →
      ∃ i, ∃ h : i < sims.length, sims.get ⟨i, h⟩ < thr ∧
        (∀ j (hj : j < sims.length), j < i → thr ≤ sims.get ⟨j, hj⟩) ∧
        off_topic_start_index histLen slice_size thr sims =
          histLen - slice_size + i) ∧
    (firstBelow thr sims = none →
      off_topic_start_index histLen slice_size thr sims =
        histLen - slice_size) := by
  refine ⟨driftDeclared_iff thr sims, ?_, ?_, ?_⟩
  · intro heq
    have hn : ¬ sims.length < 2 * countBelow thr sims := by omega
    rw [← Bool.not_eq_true, driftDeclared_iff]
    exact hn
  · intro hdecl
    have hlt := (driftDeclared_iff thr sims).mp hdecl
    obtain ⟨i, hi⟩ :=
      exists_below_firstBelow thr sims (countBelow_exists thr sims hlt)
    obtain ⟨hilen, hget, hearly⟩ := firstBelow_some_spec thr sims i hi
    refine ⟨i, hilen, hget, hearly, ?_⟩
    unfold off_topic_start_index
    rw [hi]
  · intro hnone
    unfold off_topic_start_index
    rw [hnone]

/-- C7 (witness): slice similarities `[0.9, 0.2, 0.2, 0.1]` against threshold
`0.7` declare drift (3 of 4 below) with absolute start index `8 - 4 + 1 = 5`,
while `[0.9, 0.9, 0.2, 0.1]` (exactly half below) does not trigger. -/
theorem drift_declaration_witness :
    driftDeclared (mkRat 7 10)
      [mkRat 9 10, mkRat 2 10, mkRat 2 10, mkRat 1 10] = true ∧
    driftDeclared (mkRat 7 10)
      [mkRat 9 10, mkRat 9 10, mkRat 2 10, mkRat 1 10] = false ∧
    off_topic_start_index 8 4 (mkRat 7 10)
      [mkRat 9 10, mkRat 2 10, mkRat 2 10, mkRat 1 10] = 5 :=
  ⟨(drift_declaration_and_start_index (mkRat 7 10)
      [mkRat 9 10, mkRat 2 10, mkRat 2 10, mkRat 1 10] 8 4).1.mpr (by decide),
   (drift_declaration_and_start_index (mkRat 7 10)
      [mkRat 9 10, mkRat 9 10, mkRat 2 10, mkRat 1 10] 8 4).2.1 (by decide),
   by decide⟩

/-- C8 (counterexample): the claim says every similarity computation in the
core evaluates to `0.0` on an empty vector and never raises.  In
`Topic.get_relevant_context` the query embedding reaches the library
unguarded: with a non-empty history row and an empty query vector the
library call raises instead of scoring `0.0`. -/
theorem relevant_context_empty_raises :
    Topic.get_relevant_context cosEq histT [] = .error () := by
  decide

/-- C8 (amended): empty vectors are treated as zero similarity only in topic
matching — `_match_topic`'s `compute_similarity` guards both the description
embedding and the query embedding.  Best-context lookup and per-message drift
scoring pass vectors straight to the similarity library, which raises on an
empty operand. -/
theorem empty_vector_similarity_behaviour :
    (∀ (cos : List ℚ → List ℚ → ℚ) (e : Option (List ℚ)) (t : Topic),
        t.embedded_description = [] → compute_similarity cos e t = .ok 0) ∧
    (∀ (cos : List ℚ → List ℚ → ℚ) (t : Topic),
        compute_similarity cos (some []) t = .ok 0) ∧
    (∀ (cos : List ℚ → List ℚ → ℚ) (t : Topic) (q : List ℚ),
        q = [] → t.history_embeddings ≠ [] →
        Topic.get_relevant_context cos t q = .error ()) ∧
    (∀ (cos : List ℚ → List ℚ → ℚ) (embs : List (List ℚ)),
        embs ≠ [] → drift_similarities cos [] embs = .error ()) := by
  refine ⟨?_, ?_, ?_, ?_⟩
  · intro cos e t h
    unfold compute_similarity
    rw [if_pos (by simp [h])]
  · intro cos t
    unfold compute_similarity
    by_cases h : t.embedded_description.isEmpty
    · rw [if_pos h]
    · rw [if_neg h]
      rfl
  · intro cos t q hq hne
    subst hq
    obtain ⟨e, rest, hrest⟩ := List.exists_cons_of_ne_nil hne
    unfold Topic.get_relevant_context
    rw [hrest]
    have hrow : historyRow cos [] (e :: rest) = .error () := by
      rcases e with _ | v <;>
        simp [historyRow, exceptMapM, sklearnCos]
    rw [if_neg (by simp), hrow]
  · intro cos embs hne
    obtain ⟨e, rest, hrest⟩ := List.exists_cons_of_ne_nil hne
    subst hrest
    simp [drift_similarities, exceptMapM, sklearnCos]

/-- C8 (witness): the amended behaviour at concrete inputs — matching scores
an empty query `0.0`, best-context and drift scoring raise on an empty
operand. -/
theorem empty_vector_similarity_witness :
    compute_similarity cosEq (some []) boundaryT = .ok 0 ∧
    Topic.get_relevant_context cosEq histT [] = .error () ∧
    drift_similarities cosEq [] [[1]] = .error () :=
  ⟨empty_vector_similarity_behaviour.2.1 cosEq boundaryT,
   empty_vector_similarity_behaviour.2.2.1 cosEq histT [] rfl (by decide),
   empty_vector_similarity_behaviour.2.2.2 cosEq [[1]] (by decide)⟩

/-- The `basename` fold never produces a separator: the accumulator is reset
at each `/` and only non-separator characters are appended. -/
lemma basenameList_no_slash :
    ∀ (l acc : List Char), '/' ∉ acc →
      '/' ∉ l.foldl (fun acc c => if c = '/' then [] else acc ++ [c]) acc := by
  intro l
  induction l with
  | nil => intro acc h; exact h
  | cons c rest ih =>
    intro acc h
    rw [List.foldl_cons]
    by_cases hc : c = '/'
    · rw [if_pos hc]
      exact ih [] (by simp)
    · rw [if_neg hc]
      refine ih _ ?_
      intro hmem
      rcases List.mem_append.mp hmem with h1 | h2
      · exact h h1
      · rw [List.mem_singleton] at h2
        exact hc h2.symm

/-- `os.path.basename` output contains no `/`. -/
lemma basename_no_slash (p : String) : '/' ∉ (basename p).data := by
  show '/' ∉ basenameList p.data
  exact basenameList_no_slash p.data [] (by simp)

/-- ASCII lowering only ever produces `/` from `/` itself. -/
lemma lowerChar_eq_slash (c : Char) (h : lowerChar c = '/') : c = '/' := by
by_cases h1 : c = 'A'
· subst h1; exact absurd h (by decide)
·
  by_cases h2 : c = 'B'
  · subst h2; exact absurd h (by decide)
  ·
    by_cases h3 : c = 'C'
    · subst h3; exact absurd h (by decide)
    ·
      by_cases h4 : c = 'D'
      · subst h4; exact absurd h (by decide)
      ·
        by_cases h5 : c = 'E'
        · subst h5; exact absurd h (by decide)
        ·
          by_cases h6 : c = 'F'
          · subst h6; exact absurd h (by decide)
          ·
            by_cases h7 : c = 'G'
            · subst h7; exact absurd h (by decide)
            ·
              by_cases h8 : c = 'H'
              · subst h8; exact absurd h (by decide)
              ·
                by_cases h9 : c = 'I'
                · subst h9; exact absurd h (by decide)
                ·
                  by_cases h10 : c = 'J'
                  · subst h10; exact absurd h (by decide)
                  ·
                    by_cases h11 : c = 'K'
                    · subst h11; exact absurd h (by decide)
                    ·
                      by_cases h12 : c = 'L'
                      · subst h12; exact absurd h (by decide)
                      ·
                        by_cases h13 : c = 'M'
                        · subst h13; exact absurd h (by decide)
                        ·
                          by_cases h14 : c = 'N'
                          · subst h14; exact absurd h (by decide)
                          ·
                            by_cases h15 : c = 'O'
                            · subst h15; exact absurd h (by decide)
                            ·
                              by_cases h16 : c = 'P'
                              · subst h16; exact absurd h (by decide)
                              ·
                                by_cases h17 : c = 'Q'
                                · subst h17; exact absurd h (by decide)
                                ·
                                  by_cases h18 : c = 'R'
                                  · subst h18; exact absurd h (by decide)
                                  ·
                                    by_cases h19 : c = 'S'
                                    · subst h19; exact absurd h (by decide)
                                    ·
                                      by_cases h20 : c = 'T'
                                      · subst h20; exact absurd h (by decide)
                                      ·
                                        by_cases h21 : c = 'U'
                                        · subst h21; exact absurd h (by decide)
                                        ·
                                          by_cases h22 : c = 'V'
                                          · subst h22; exact absurd h (by decide)
                                          ·
                                            by_cases h23 : c = 'W'
                                            · subst h23; exact absurd h (by decide)
                                            ·
                                              by_cases h24 : c = 'X'
                                              · subst h24; exact absurd h (by decide)
                                              ·
                                                by_cases h25 : c = 'Y'
                                                · subst h25; exact absurd h (by decide)
                                                ·
                                                  by_cases h26 : c = 'Z'
                                                  · subst h26; exact absurd h (by decide)
                                                  ·
                                                    have hcc : lowerChar c = c := by
                                                      unfold lowerChar
                                                      rw [if_neg h1, if_neg h2, if_neg h3, if_neg h4, if_neg h5, if_neg h6, if_neg h7, if_neg h8, if_neg h9, if_neg h10, if_neg h11, if_neg h12, if_neg h13, if_neg h14, if_neg h15, if_neg h16, if_neg h17, if_neg h18, if_neg h19, if_neg h20, if_neg h21, if_neg h22, if_neg h23, if_neg h24, if_neg h25, if_neg h26]
                                                    rw [hcc] at h
                                                    exact h

/-- Lowering preserves the presence of `/`. -/
lemma lower_mem_slash (s : String) (h : '/' ∈ s.data) :
    '/' ∈ (lowerStr s).data := by
  show '/' ∈ s.data.map lowerChar
  exact List.mem_map.mpr ⟨'/', h, by decide⟩

/-- Lowering preserves the absence of `/`. -/
lemma lower_no_slash (s : String) (h : '/' ∉ s.data) :
    '/' ∉ (lowerStr s).data := by
  show '/' ∉ s.data.map lowerChar
  intro hm
  obtain ⟨c, hc, hl⟩ := List.mem_map.mp hm
  have : c = '/' := lowerChar_eq_slash c hl
  rw [this] at hc
  exact h hc

/-- Every character of a prefix occurs in the longer list. -/
lemma isPrefixOf_mem :
    ∀ (n h : List Char), n.isPrefixOf h = true → ∀ c ∈ n, c ∈ h := by
  intro n
  induction n with
  | nil =>
    intro h _ c hc
    exact absurd hc (List.not_mem_nil c)
  | cons a as ih =>
    intro h hp c hc
    cases h with
    | nil => simp [List.isPrefixOf] at hp
    | cons b bs =>
      simp only [List.isPrefixOf, Bool.and_eq_true, beq_iff_eq] at hp
      rcases List.mem_cons.mp hc with heq | hc'
      · rw [heq, hp.1]
        exact List.mem_cons_self b bs
      · exact List.mem_cons_of_mem b (ih bs hp.2 c hc')

/-- Every character of a substring occurs in the containing list. -/
lemma hasSubstr_mem :
    ∀ (hay needle : List Char), hasSubstr needle hay = true →
      ∀ c ∈ needle, c ∈ hay := by
  intro hay
  induction hay with
  | nil =>
    intro needle hs c hc
    unfold hasSubstr at hs
    rw [List.isEmpty_iff] at hs
    rw [hs] at hc
    exact absurd hc (List.not_mem_nil c)
  | cons a rest ih =>
    intro needle hs c hc
    unfold hasSubstr at hs
    rw [Bool.or_eq_true] at hs
    rcases hs with h1 | h2
    · exact isPrefixOf_mem needle (a :: rest) h1 c hc
    · exact List.mem_cons_of_mem a (ih needle h2 c hc)

/-- Python dict assignment only rebinds the given key: every entry of the
result is an old entry or the new binding. -/
lemma dictSet_mem {β : Type} :
    ∀ (m : List (String × β)) (k : String) (v : β) (pr : String × β),
      pr ∈ dictSet m k v → pr ∈ m ∨ pr = (k, v) := by
  intro m
  induction m with
  | nil =>
    intro k v pr h
    right
    simp only [dictSet] at h
    simpa using h
  | cons kv rest ih =>
    intro k v pr h
    obtain ⟨k', v'⟩ := kv
    simp only [dictSet] at h
    by_cases hk : k' = k
    · rw [if_pos hk] at h
      rcases List.mem_cons.mp h with heq | h'
      · right; exact heq
      · left; exact List.mem_cons_of_mem _ h'
    · rw [if_neg hk] at h
      rcases List.mem_cons.mp h with heq | h'
      · left; rw [heq]; exact List.mem_cons_self _ _
      · rcases ih k v pr h' with h2 | h2
        · left; exact List.mem_cons_of_mem _ h2
        · right; exact h2

/-- C10: indexed file records store only the basename of the path in
`file_name` (first two conjuncts), so an extracted query file name containing
a directory separator is never a case-insensitive substring of any stored
`file_name`: the score-1.0 name-match pass of `get_relevant_files` matches
nothing, and step 1 falls through to embedding-similarity scoring. -/
theorem path_qualified_query_name_skips_name_pass :
    (∀ (t : Topic) (p : String) (e : List ℚ) (pr : String × FileInfo),
        pr ∈ (t.index_file p e).file_embeddings →
        pr ∈ t.file_embeddings ∨
          pr = (p, { file_name := basename p, full_path := p,
                     embedding := e })) ∧
    (∀ p : String, '/' ∉ (basename p).data) ∧
    (∀ (cos : List ℚ → List ℚ → ℚ) (t : Topic) (fn : String) (q : List ℚ)
        (thr : ℚ), '/' ∈ fn.data →
        (∀ pr ∈ t.file_embeddings, '/' ∉ pr.2.file_name.data) →
        name_match_scores t fn = [] ∧
        step1_scores cos t (some fn) q thr =
          embedding_scores cos t q thr) := by
  refine ⟨?_, basename_no_slash, ?_⟩
  · intro t p e pr h
    exact dictSet_mem t.file_embeddings p _ pr h
  · intro cos t fn q thr hslash hbase
    have hfil : t.file_embeddings.filter
        (fun pr =>
          hasSubstr (lowerStr fn).data (lowerStr pr.2.file_name).data) =
        [] := by
      rw [List.filter_eq_nil_iff]
      intro pr hpr habs
      have hmem := hasSubstr_mem (lowerStr pr.2.file_name).data
        (lowerStr fn).data habs '/' (lower_mem_slash fn hslash)
      exact lower_no_slash pr.2.file_name (hbase pr hpr) hmem
    have hnm : name_match_scores t fn = [] := by
      unfold name_match_scores
      rw [hfil]
      rfl
    refine ⟨hnm, ?_⟩
    have hred : step1_scores cos t (some fn) q thr =
        (if (name_match_scores t fn).isEmpty = true then
          embedding_scores cos t q thr
        else .ok (name_match_scores t fn)) := rfl
    rw [hred, hnm]
    rfl

/-- C10 (witness): the topic that indexed `"src/app/main.py"` stores basename
`"main.py"`; the extracted path-qualified name matches nothing in the
name-match pass and step 1 equals the embedding pass. -/
theorem path_qualified_query_witness :
    name_match_scores tC10 "src/app/main.py" = [] ∧
    step1_scores cosEq tC10 (some "src/app/main.py") [1] (mkRat 3 10) =
      embedding_scores cosEq tC10 [1] (mkRat 3 10) :=
  path_qualified_query_name_skips_name_pass.2.2 cosEq tC10 "src/app/main.py"
    [1] (mkRat 3 10) (by decide) (by decide)
